import Mathlib

/-!
Verification of the compone component engine (src/core/compone/component.py)
against its natural-language specification.

The Python source is shallowly embedded: Python dicts become association
lists with insertion-order-preserving update semantics, Python values
appearing as component props / HTML attribute values become the `Value`
inductive, exceptions become `Except PyErr`, and the context-variable based
parent tracking becomes explicit state passing over `CMState`.

The string-escaping primitive (escape.py) and the iterability test
(utils.py) are part of the repository but are not present under src/; they
are modelled from the specification where noted.
-/

namespace Compone

/-- Python values that occur as component props and HTML attribute values:
plain strings, safe (already-escaped) strings, booleans, None and ints.
Mirrors the value kinds handled by component.py. -/
inductive Value where
  | str (s : String)
  | safeV (s : String)
  | bool (b : Bool)
  | noneV
  | int (n : Int)
deriving DecidableEq, Repr

/-- Python exceptions raised by component.py. -/
inductive PyErr where
  | valueErr (msg : String)
  | keyErr (msg : String)
  | typeErr
deriving DecidableEq, Repr

/-- A Python dict with string keys: an insertion-ordered association list,
unique keys being maintained by `dictSet`. -/
abbrev Props := List (String × Value)

/-- Python `key in d`. -/
def containsKey (d : Props) (k : String) : Bool :=
  d.any (fun kv => kv.1 == k)

/-- Python `d[key]` as an Option (first matching entry). -/
def dlookup (d : Props) (k : String) : Option Value :=
  (d.find? (fun kv => kv.1 == k)).map Prod.snd

/-- Python `d[key] = v` on a duplicate-free dict: an existing key keeps its
position and gets the new value; a new key is appended at the end. -/
def dictSet (d : Props) (k : String) (v : Value) : Props :=
  match d with
  | [] => [(k, v)]
  | kv :: rest => if kv.1 == k then (k, v) :: rest else kv :: dictSet rest k v

/-- Python `{**d, **m}` and `d.update(m)`: set each pair of `m` in order. -/
def dictUpdate (d : Props) (m : Props) : Props :=
  m.foldl (fun acc kv => dictSet acc kv.1 kv.2) d

theorem containsKey_nil (k : String) : containsKey [] k = false := rfl

theorem containsKey_cons (kv : String × Value) (d : Props) (k : String) :
    containsKey (kv :: d) k = ((kv.1 == k) || containsKey d k) := by
  simp [containsKey]

theorem containsKey_append (d e : Props) (k : String) :
    containsKey (d ++ e) k = (containsKey d k || containsKey e k) := by
  simp [containsKey]

theorem containsKey_dictSet (d : Props) (k0 : String) (v0 : Value) (k : String) :
    containsKey (dictSet d k0 v0) k = ((k0 == k) || containsKey d k) := by
  induction d with
  | nil => simp [dictSet, containsKey]
  | cons kv rest ih =>
    rw [dictSet]
    by_cases h : kv.1 == k0
    · rw [if_pos h, containsKey_cons, containsKey_cons]
      rw [beq_iff_eq] at h
      rw [h]
      cases hc : (k0 == k) <;> simp
    · rw [if_neg h, containsKey_cons, ih, containsKey_cons, Bool.or_left_comm]

theorem dlookup_cons (kv : String × Value) (d : Props) (k : String) :
    dlookup (kv :: d) k = if kv.1 == k then some kv.2 else dlookup d k := by
  by_cases h : kv.1 == k <;> simp [dlookup, List.find?, h]

theorem dlookup_dictSet (d : Props) (k0 : String) (v0 : Value) (k : String) :
    dlookup (dictSet d k0 v0) k = if k0 == k then some v0 else dlookup d k := by
  induction d with
  | nil =>
    cases h : (k0 == k) <;> simp [dictSet, dlookup, List.find?, h]
  | cons kv rest ih =>
    rw [dictSet]
    by_cases h : kv.1 == k0
    · rw [if_pos h, dlookup_cons, dlookup_cons]
      rw [beq_iff_eq] at h
      rw [h]
      by_cases hk : (k0 == k) <;> simp [hk]
    · rw [if_neg h, dlookup_cons, dlookup_cons, ih]
      by_cases hk : kv.1 == k
      · have hne : (k0 == k) = false := by
          rw [beq_iff_eq] at hk
          rw [beq_eq_false_iff_ne]
          intro he
          apply h
          rw [beq_iff_eq, hk, he]
        simp [hk, hne]
      · simp [hk]

theorem dlookup_eq_none_of_not_containsKey (d : Props) (k : String)
    (h : containsKey d k = false) : dlookup d k = none := by
  induction d with
  | nil => rfl
  | cons kv rest ih =>
    rw [containsKey_cons, Bool.or_eq_false_iff] at h
    rw [dlookup_cons, if_neg (by simp [h.1]), ih h.2]

theorem containsKey_dictUpdate (d m : Props) (k : String) :
    containsKey (dictUpdate d m) k = (containsKey d k || containsKey m k) := by
  induction m generalizing d with
  | nil => simp [dictUpdate, containsKey]
  | cons kv rest ih =>
    show containsKey (dictUpdate (dictSet d kv.1 kv.2) rest) k = _
    rw [ih, containsKey_dictSet, containsKey_cons]
    cases containsKey d k <;> cases (kv.1 == k) <;> cases containsKey rest k <;> simp

/-- Keys of a dict, in order. -/
def dictKeys (d : Props) : List String := d.map Prod.fst

theorem nodup_keys_dictSet (d : Props) (k : String) (v : Value)
    (h : (dictKeys d).Nodup) : (dictKeys (dictSet d k v)).Nodup := by
  induction d with
  | nil => simp [dictSet, dictKeys]
  | cons kv rest ih =>
    rw [dictKeys, List.map_cons, List.nodup_cons] at h
    rw [dictSet]
    by_cases hk : kv.1 == k
    · rw [if_pos hk]
      rw [beq_iff_eq] at hk
      subst hk
      rw [dictKeys, List.map_cons, List.nodup_cons]
      exact ⟨h.1, h.2⟩
    · rw [if_neg hk]
      rw [dictKeys, List.map_cons, List.nodup_cons]
      refine ⟨?_, ih h.2⟩
      intro hc
      have : kv.1 ∈ dictKeys (dictSet rest k v) := hc
      have hmem : containsKey (dictSet rest k v) kv.1 = true := by
        unfold containsKey
        rw [List.any_eq_true]
        unfold dictKeys at this
        rw [List.mem_map] at this
        obtain ⟨x, hx, he⟩ := this
        exact ⟨x, hx, by rw [beq_iff_eq]; exact he⟩
      rw [containsKey_dictSet, Bool.or_eq_true] at hmem
      rcases hmem with hm | hm
      · rw [beq_iff_eq] at hm
        subst hm
        simp at hk
      · have : kv.1 ∈ dictKeys rest := by
          unfold containsKey at hm
          rw [List.any_eq_true] at hm
          obtain ⟨x, hx, he⟩ := hm
          rw [beq_iff_eq] at he
          unfold dictKeys
          rw [List.mem_map]
          exact ⟨x, hx, he⟩
        exact h.1 this

theorem nodup_keys_dictUpdate (d m : Props) (h : (dictKeys d).Nodup) :
    (dictKeys (dictUpdate d m)).Nodup := by
  induction m generalizing d with
  | nil => exact h
  | cons kv rest ih =>
    show (dictKeys (dictUpdate (dictSet d kv.1 kv.2) rest)).Nodup
    exact ih _ (nodup_keys_dictSet _ _ _ h)

theorem containsKey_iff_mem_keys (d : Props) (k : String) :
    containsKey d k = true ↔ k ∈ dictKeys d := by
  unfold containsKey dictKeys
  rw [List.any_eq_true, List.mem_map]
  constructor
  · rintro ⟨kv, hkv, hbeq⟩
    rw [beq_iff_eq] at hbeq
    exact ⟨kv, hkv, hbeq⟩
  · rintro ⟨kv, hkv, he⟩
    exact ⟨kv, hkv, by rw [beq_iff_eq]; exact he⟩

theorem dlookup_dictUpdate (d m : Props) (k : String) (hm : (dictKeys m).Nodup) :
    dlookup (dictUpdate d m) k =
      if containsKey m k then dlookup m k else dlookup d k := by
  induction m generalizing d with
  | nil => simp [dictUpdate, containsKey]
  | cons kv rest ih =>
    rw [dictKeys, List.map_cons, List.nodup_cons] at hm
    show dlookup (dictUpdate (dictSet d kv.1 kv.2) rest) k = _
    rw [ih _ hm.2, containsKey_cons, dlookup_cons, dlookup_dictSet]
    by_cases hrest : containsKey rest k
    · have hk : (kv.1 == k) = false := by
        rw [beq_eq_false_iff_ne]
        intro he
        rw [containsKey_iff_mem_keys] at hrest
        rw [he] at hm
        exact hm.1 hrest
      simp [hrest, hk]
    · by_cases hk : kv.1 == k
      · simp [hrest, hk]
      · simp [hrest, hk]


/-- Modelled from the spec: per-character escaping by the external
string-escaping primitive (escape.py is not under src/). The spec only
requires that escaped text contains no raw occurrence of the five
markup-significant characters; numeric entities are used for quotes. -/
def escapeChar (c : Char) : String :=
  if c = '&' then "&amp;"
  else if c = '<' then "&lt;"
  else if c = '>' then "&gt;"
  else if c = '"' then "&#34;"
  else if c = '\'' then "&#39;"
  else String.singleton c

/-- Modelled from the spec: escape(value) on a plain string (escape.py is
not under src/): HTML-entity-style escaping of the characters requiring it. -/
def escapeStr (s : String) : String := String.join (s.data.map escapeChar)

/-- The Python reserved words, as tested by keyword.iskeyword. -/
def pythonKeywords : List String :=
  ["False", "None", "True", "and", "as", "assert", "async", "await",
   "break", "class", "continue", "def", "del", "elif", "else", "except",
   "finally", "for", "from", "global", "if", "import", "in", "is",
   "lambda", "nonlocal", "not", "or", "pass", "raise", "return", "try",
   "while", "with", "yield"]

/-- Python keyword.iskeyword. -/
def iskeyword (s : String) : Bool := pythonKeywords.contains s

/-- Python escape(v) applied to an attribute value: a plain string is
escaped, a safe string passes through, any other value is escaped via its
str() text. Modelled from the spec for the missing escape.py. -/
def escapeVal : Value → String
  | .str s => escapeStr s
  | .safeV s => s
  | .bool b => if b then "True" else "False"
  | .noneV => "None"
  | .int n => toString n

/-- Python `c in s` for a character c and string s. -/
def strContainsChar (s : String) (c : Char) : Bool := s.data.contains c

/-- Python isinstance(val, str): safe strings are str subclasses. -/
def isStrLike : Value → Option String
  | .str s => some s
  | .safeV s => some s
  | _ => none

/-- The quoting test of _convert_kwargs line 246: isinstance(val, str)
and both quote characters occur in the value. -/
def bothQuotes (v : Value) : Bool :=
  match isStrLike v with
  | some s => strContainsChar s '"' && strContainsChar s '\''
  | none => false

/-- Python isinstance(val, bool). -/
def isBoolVal : Value → Bool
  | .bool _ => true
  | _ => false

/-- Python truthiness of a boolean value (False for every non-bool). -/
def boolValTrue : Value → Bool
  | .bool b => b
  | _ => false

/-- The loop of _HTMLComponentBase._convert_kwargs (component.py lines
240-261), with accumulators new_kwargs, keyval_args and bool_args. Note
the source tests keyword.iskeyword(key[:-1]), i.e. it strips the last
character of the key whatever that character is. -/
def convertGo : Props → Props → Props → List String →
    Except PyErr (Props × Props × List String)
  | [], nk, kv, ba => .ok (nk, kv, ba)
  | (key, val) :: rest, nk, kv, ba =>
    if bothQuotes val then
      .error (.valueErr "Both single and double quotes in attribute value")
    else if iskeyword (key.dropRight 1) then
      convertGo rest (dictSet nk (key.dropRight 1) val)
        (dictSet kv (key.dropRight 1) val) ba
    else if isBoolVal val then
      if boolValTrue val then convertGo rest nk kv (ba ++ [key])
      else convertGo rest nk kv ba
    else convertGo rest (dictSet nk key val) (dictSet kv key val) ba

/-- _HTMLComponentBase._convert_kwargs: returns (new_kwargs, keyval_args,
bool_args) or raises ValueError. -/
def _convert_kwargs (kwargs : Props) : Except PyErr (Props × Props × List String) :=
  convertGo kwargs [] [] []

/-- Python str.replace with the single-character pattern of _get_attributes. -/
def underscoreToHyphen (s : String) : String :=
  String.mk (s.data.map (fun c => if c = '_' then '-' else c))

/-- The conv lambda of _get_attributes line 264: escape(str(s).replace("_","-")). -/
def convName (s : String) : String := escapeStr (underscoreToHyphen s)

/-- One key/value attribute as formatted by _get_attributes lines 268-277:
name="value", or name='value' when the escaped value contains a double
quote. -/
def fmtKeyVal (k : String) (v : Value) : String :=
  let hk := convName k
  let hv := escapeVal v
  if strContainsChar hv '"' then hk ++ "='" ++ hv ++ "'"
  else hk ++ "=\"" ++ hv ++ "\""

/-- _HTMLComponentBase._get_attributes (component.py lines 263-280):
boolean attributes first, then key/value attributes in insertion order,
None values skipped, each group prefixed by a space when nonempty. -/
def _get_attributes (keyvalArgs : Props) (boolArgs : List String) : String :=
  let bs := String.intercalate " " (boolArgs.map convName)
  let bs := if bs ≠ "" then " " ++ bs else ""
  let kvList := keyvalArgs.filterMap
    (fun kv => if kv.2 = Value.noneV then none else some (fmtKeyVal kv.1 kv.2))
  let ks := String.intercalate " " kvList
  let ks := if ks ≠ "" then " " ++ ks else ""
  bs ++ ks

mutual
/-- A content unit in the children/render pipeline: a plain string, a safe
string, a children-capable component instance, or a non-string iterable
(list/tuple) of content. -/
inductive Content where
  | text : String → Content
  | safeS : String → Content
  | comp : HComp → Content
  | seq : ContentList → Content
deriving DecidableEq

/-- A Python sequence of content units. -/
inductive ContentList where
  | nil : ContentList
  | cons : Content → ContentList → ContentList
deriving DecidableEq

/-- An HTML element component instance as produced by _Elem/_SelfElem:
a tag, the already-converted keyval_args and bool_args, and (for the
non-self-closing variant) attached children. -/
inductive HComp where
  | elem : String → Props → List String → ContentList → HComp
  | selfElem : String → Props → List String → HComp
deriving DecidableEq
end

mutual
/-- Python str(component): _HTMLComponent._render wraps the rendered
children in open/close tags (component.py line 286);
_SelfClosingHTMLComponent.__str__ emits the self-closing form (line 292). -/
def renderComp : HComp → String
  | .elem tag kv ba cs =>
      "<" ++ tag ++ _get_attributes kv ba ++ ">" ++ joinEscaped cs ++
        "</" ++ tag ++ ">"
  | .selfElem tag kv ba => "<" ++ tag ++ _get_attributes kv ba ++ " />"

/-- One child as escaped by _ChildrenMixin._escape (lines 121-127): a
component instance becomes safe(str(ch)) - its full render, not re-escaped;
anything else goes through escape(ch). The escape primitive on a safe
string is a no-op, on a plain string it escapes, and on an iterable it
flattens recursively (the last behaviour modelled from the spec, escape.py
not being under src/). -/
def escapeChild : Content → String
  | .comp c => renderComp c
  | .text s => escapeStr s
  | .safeS s => s
  | .seq l => joinEscaped l

/-- The safe("".join(escaped_children)) concatenation of __render. -/
def joinEscaped : ContentList → String
  | .nil => ""
  | .cons c rest => escapeChild c ++ joinEscaped rest
end

/-- List view of a ContentList. -/
def ContentList.toList : ContentList → List Content
  | .nil => []
  | .cons c rest => c :: rest.toList

/-- The _ChildrenMixin.__render step (lines 132-137) for a component whose
content-producing step is render1: an empty children sequence is passed to
render1 as the empty safe string; otherwise the children are escaped
individually and concatenated. -/
def renderWith (render1 : String → String) (children : ContentList) : String :=
  if children = ContentList.nil then render1 ""
  else render1 (joinEscaped children)

/-- The _render of an HTML element component, as a content-producing step
(component.py line 286). -/
def htmlRender1 (tag : String) (kv : Props) (ba : List String)
    (children : String) : String :=
  "<" ++ tag ++ _get_attributes kv ba ++ ">" ++ children ++ "</" ++ tag ++ ">"

/-- The children normalization of _ChildrenMixin.__getitem__ (lines
110-119): a plain string, safe string or children-capable component is
treated as a single unit; any other iterable is the sequence itself. The
iterability test comes from the missing utils.py, modelled from the spec:
strings and components are iterable but special-cased, a bare sequence is
iterated. -/
def normalizeChildren : Content → ContentList
  | .seq l => l
  | c => ContentList.cons c ContentList.nil

/-- Python truthiness of a value stored in _children: empty strings and
empty sequences are falsy, everything else (including any component
instance) is truthy. -/
def truthy : Content → Bool
  | .text s => s ≠ ""
  | .safeS s => s ≠ ""
  | .seq l => l ≠ ContentList.nil
  | .comp _ => true

/-- The state of the parent-tracking machinery: the last_parent context
variable (component.py line 13) holding the active (frame id, parent)
pair, the per-component saved fields _parent_frame_id and _parent, and
each component's _children list. Components and frames are identified by
numeric ids. -/
structure CMState where
  lastParent : Option Nat × Option Nat
  savedFrame : Nat → Option Nat
  savedParent : Nat → Option Nat
  childrenOf : Nat → List Nat

/-- Pointwise function update. -/
def updFn {α : Type} (f : Nat → α) (k : Nat) (v : α) : Nat → α :=
  fun n => if n = k then v else f n

/-- _ChildrenMixin.__enter__ (lines 89-95): save the active pair into the
entering component's fields, then make (entering caller's frame id, this
component) the active pair. -/
def enterCM (c : Nat) (enterFrame : Nat) (st : CMState) : CMState :=
  { st with
    savedFrame := updFn st.savedFrame c st.lastParent.1
    savedParent := updFn st.savedParent c st.lastParent.2
    lastParent := (some enterFrame, some c) }

/-- _ChildrenMixin.__exit__ (lines 97-101): if a saved parent exists and
the exiting caller's frame id equals the saved frame id, append the
component to the saved parent's children; in every case restore the saved
pair into last_parent. The exception information passed to the handler is
ignored by the source, so an abnormal exit behaves identically. -/
def exitCM (c : Nat) (exitFrame : Nat) (_excInfo : Option String)
    (st : CMState) : CMState :=
  let st1 :=
    match st.savedParent c, st.savedFrame c with
    | some p, some fid =>
        if fid = exitFrame then
          { st with childrenOf := updFn st.childrenOf p (st.childrenOf p ++ [c]) }
        else st
    | _, _ => st
  { st1 with lastParent := (st.savedFrame c, st.savedParent c) }

/-- A factory-built component: the class name (for repr), the declared
argument names, the class-level defaults, and the instance props. -/
structure BaseComp where
  name : String
  argnames : List String
  defaults : Props
  props : Props
deriving DecidableEq

/-- _ComponentBase.__init__ (lines 32-40): start from the (deep-copied)
defaults, bind positional args to the declared names in order, then apply
keyword args. -/
def initProps (defaults : Props) (argnames : List String) (args : List Value)
    (kwargs : Props) : Props :=
  dictUpdate (dictUpdate defaults (argnames.zip args)) kwargs

/-- Python repr(value) for prop values: strings repr with single quotes,
True/False/None, ints; the repr of a safe string is modelled from
markupsafe conventions (escape.py is not under src/). Only used inside the
merge error message. -/
def reprVal : Value → String
  | .str s => "'" ++ s ++ "'"
  | .safeV s => "safe('" ++ s ++ "')"
  | .bool b => if b then "True" else "False"
  | .noneV => "None"
  | .int n => toString n

/-- _ComponentBase.__repr__ (lines 65-67). -/
def reprBase (c : BaseComp) : String :=
  "<" ++ c.name ++ "(" ++ String.intercalate ", "
    (c.props.map (fun kv => kv.1 ++ "=" ++ reprVal kv.2)) ++ ")>"

/-- _ComponentBase._merge (lines 79-81): overlay kwargs on a deep copy of
props and rebuild via the class constructor with keyword arguments only. -/
def _merge (c : BaseComp) (kwargs : Props) : BaseComp :=
  { c with props := initProps c.defaults c.argnames [] (dictUpdate c.props kwargs) }

/-- _ComponentBase.replace (lines 42-43). -/
def replaceB (c : BaseComp) (kwargs : Props) : BaseComp := _merge c kwargs

/-- _ComponentBase.copy (lines 62-63). -/
def copyB (c : BaseComp) : BaseComp := _merge c []

/-- _ComponentBase.merge (lines 53-60): fail with a KeyError naming every
overlapping key, otherwise _merge. -/
def mergeB (c : BaseComp) (kwargs : Props) : Except PyErr BaseComp :=
  let overlapping := (dictKeys kwargs).filter (fun k => containsKey c.props k)
  if overlapping ≠ [] then
    .error (.keyErr (String.intercalate ", " overlapping ++
      " already specified in " ++ reprBase c ++
      ", use the replace method if you want to replace arguments"))
  else .ok (_merge c kwargs)

/-- Python + on prop values, as used by _ComponentBase.append: string
concatenation, safe concatenation (a plain operand is escaped first,
modelled from the spec for the missing escape.py), integer and boolean
addition; unsupported combinations raise TypeError. -/
def pyAdd : Value → Value → Except PyErr Value
  | .str a, .str b => .ok (.str (a ++ b))
  | .safeV a, .safeV b => .ok (.safeV (a ++ b))
  | .safeV a, .str b => .ok (.safeV (a ++ escapeStr b))
  | .str a, .safeV b => .ok (.safeV (escapeStr a ++ b))
  | .int a, .int b => .ok (.int (a + b))
  | .bool a, .bool b => .ok (.int ((if a then 1 else 0) + (if b then 1 else 0)))
  | .bool a, .int b => .ok (.int ((if a then 1 else 0) + b))
  | .int a, .bool b => .ok (.int (a + (if b then 1 else 0)))
  | _, _ => .error .typeErr

/-- The appended dict built by _ComponentBase.append (lines 45-51). -/
def appendedKwargs (props : Props) (kwargs : Props) : Except PyErr Props :=
  kwargs.mapM (fun kv =>
    match dlookup props kv.1 with
    | some old => do
        let v ← pyAdd old kv.2
        pure (kv.1, v)
    | none => pure (kv.1, kv.2))

/-- _ComponentBase.append (lines 45-51). -/
def appendB (c : BaseComp) (kwargs : Props) : Except PyErr BaseComp := do
  let appended ← appendedKwargs c.props kwargs
  pure (_merge c appended)

/-- An _HTMLComponentBase instance (with _attributes = None): the tag, the
props built from new_kwargs by _ComponentBase.__init__, and the
serialization inputs keyval_args and bool_args. -/
structure HtmlComp where
  tag : String
  props : Props
  keyvalArgs : Props
  boolArgs : List String
deriving DecidableEq

/-- _HTMLComponentBase.__init__ (lines 220-226): convert the keyword
arguments, keep keyval_args/bool_args for serialization, and let
_ComponentBase.__init__ set props from new_kwargs (no defaults, no
positional arguments). -/
def htmlInit (tag : String) (kwargs : Props) : Except PyErr HtmlComp := do
  let (nk, kv, ba) ← _convert_kwargs kwargs
  pure { tag := tag, props := initProps [] [] [] nk, keyvalArgs := kv, boolArgs := ba }

/-- __repr__ of an HTML element component, whose class name is the
capitalized tag (_HtmlElem, lines 366-374). -/
def reprHtml (c : HtmlComp) : String :=
  "<" ++ c.tag.capitalize ++ "(" ++ String.intercalate ", "
    (c.props.map (fun kv => kv.1 ++ "=" ++ reprVal kv.2)) ++ ")>"

/-- _HTMLComponentBase.replace (lines 228-230): convert the kwargs, then
_ComponentBase.replace; its _merge rebuilds the instance through
_HTMLComponentBase.__init__, which converts the merged props again. -/
def htmlReplace (c : HtmlComp) (kwargs : Props) : Except PyErr HtmlComp := do
  let (ck, _, _) ← _convert_kwargs kwargs
  htmlInit c.tag (dictUpdate c.props ck)

/-- _HTMLComponentBase.merge (lines 236-238): convert the kwargs, then
_ComponentBase.merge (overlap check against props), then rebuild. -/
def htmlMerge (c : HtmlComp) (kwargs : Props) : Except PyErr HtmlComp := do
  let (ck, _, _) ← _convert_kwargs kwargs
  let overlapping := (dictKeys ck).filter (fun k => containsKey c.props k)
  if overlapping ≠ [] then
    .error (.keyErr (String.intercalate ", " overlapping ++
      " already specified in " ++ reprHtml c ++
      ", use the replace method if you want to replace arguments"))
  else htmlInit c.tag (dictUpdate c.props ck)

/-- _HTMLComponentBase.append (lines 232-234) over _ComponentBase.append. -/
def htmlAppend (c : HtmlComp) (kwargs : Props) : Except PyErr HtmlComp := do
  let (ck, _, _) ← _convert_kwargs kwargs
  let appended ← appendedKwargs c.props ck
  htmlInit c.tag (dictUpdate c.props appended)

/-- _ComponentBase.copy on an HTML element component: _merge({}) rebuilds
the instance from props alone through _HTMLComponentBase.__init__. -/
def htmlCopy (c : HtmlComp) : Except PyErr HtmlComp :=
  htmlInit c.tag (dictUpdate c.props [])

/-- The children-binding state of a _LazyComponent: the _lazy flag and the
_children container. A freshly constructed instance has _lazy = False and
an empty children list; the .lazy accessor returns a copy with the flag
set. -/
structure LazyComp where
  isLazy : Bool
  children : Content
deriving DecidableEq

/-- The Python return value of a __getitem__ call. -/
inductive GetOut where
  | rendered (s : String)
  | selfRet
  | raised (e : PyErr)
deriving DecidableEq

/-- _LazyComponent.__getitem__ (lines 151-161) over
_ChildrenMixin.__getitem__ (lines 110-119), for a component whose
content-producing step is render1. Returns the call's result together
with the possibly mutated receiver: not lazy - render the normalized
content, receiver untouched; lazy with falsy _children - store the raw
content and return self; lazy with truthy _children - ValueError, receiver
untouched. -/
def lazyGetitem (render1 : String → String) (c : LazyComp) (content : Content) :
    GetOut × LazyComp :=
  if c.isLazy = false then
    (.rendered (renderWith render1 (normalizeChildren content)), c)
  else if truthy c.children then
    (.raised (.valueErr "Lazy component already has children"), c)
  else
    (.selfRet, { c with children := content })

/-- The declared parameters of a Python function or method, as inspected by
inspect.getfullargspec: positional-or-keyword names and keyword-only
names. -/
structure ArgSpec where
  args : List String
  kwonlyargs : List String

/-- _make_func_component line 352: a function component passes children to
its function iff "children" is among the keyword-only argument names. -/
def funcPassChildren (a : ArgSpec) : Bool := a.kwonlyargs.contains "children"

/-- _make_class_component line 336: a class component passes children to
render iff "children" is among render's positional or keyword-only
argument names. -/
def classPassChildren (renderSpec : ArgSpec) : Bool :=
  (renderSpec.args ++ renderSpec.kwonlyargs).contains "children"

/-- The keyword arguments passed to the content function by
_FuncComponent._get_content (lines 189-198): the props minus the declared
positional names, plus the resolved children when _pass_children. -/
def funcCallKwargs (props : Props) (argnames : List String) (passChildren : Bool)
    (children : String) : Props :=
  let kwargs := props.filter (fun kv => !(argnames.contains kv.1))
  if passChildren then dictSet kwargs "children" (Value.safeV children) else kwargs

/-- The positional arguments of the same call: props[name] for each
declared name, in order. -/
def funcCallArgs (props : Props) (argnames : List String) : List (Option Value) :=
  argnames.map (dlookup props)

/-- _ClassComponent._get_content (lines 209-213): the children argument
handed to the user render method, present iff _pass_children. -/
def classRenderChildrenArg (passChildren : Bool) (children : String) : Option String :=
  if passChildren then some children else none

/-- _ContentMixin._render (lines 165-178): dispatch on the value returned
by the content-producing step - safe passes through, a component renders
to safe text, a plain string is escaped, an iterable is escaped
elementwise and joined. -/
def contentRender : Content → String
  | .safeS s => s
  | .comp c => renderComp c
  | .text s => escapeStr s
  | .seq l => joinEscaped l

/-- Python str * int: Python repeats a string max(n, 0) times. -/
def pyStrMul (s : String) (n : Int) : String :=
  String.join (List.replicate n.toNat s)

/-- The operand classes __mul__ distinguishes. -/
inductive MulOperand where
  | int (n : Int)
  | nonInt

/-- The rendered output of the zero-argument component instance returned
by _ComponentBase.__mul__ (lines 69-77) for an HTML element receiver: the
new instance has no children, so __render hands the empty safe string to
_render, whose content is safe(str(self)) * n, passed through
_ContentMixin._render unchanged. -/
def mulComponentRender (c : HComp) (n : Int) : String :=
  renderWith (fun _ => contentRender (Content.safeS (pyStrMul (renderComp c) n)))
    ContentList.nil

/-- _ComponentBase.__mul__ (lines 69-77): NotImplemented (none) for a
non-integer operand, otherwise the rendered output of the returned
Multiple instance. -/
def hmulRendered (c : HComp) (o : MulOperand) : Option String :=
  match o with
  | .int n => some (mulComponentRender c n)
  | .nonInt => none

/-- A concrete tracking state: parent component 0 entered from frame 1. -/
def cmInitState : CMState :=
  { lastParent := (some 1, some 0)
    savedFrame := fun _ => none
    savedParent := fun _ => none
    childrenOf := fun _ => [] }

/-- C1: a component c enters a scoped block (saving the active pair) and
later exits in any state in which its saved fields are untouched. The
component is appended to the saved parent's children exactly once, at the
end (document order), if and only if a saved parent exists and the exit
frame id equals the frame id saved at enter time; and in every case -
attachment or not, normal or abnormal exit - the pair that was active
before the enter is restored into last_parent. -/
theorem claim_C1_scoped_block (st stM : CMState) (c fE fX : Nat)
    (exc : Option String)
    (hF : stM.savedFrame c = (enterCM c fE st).savedFrame c)
    (hP : stM.savedParent c = (enterCM c fE st).savedParent c) :
    (exitCM c fX exc stM).lastParent = st.lastParent ∧
    (∀ f p, st.lastParent = (some f, some p) → f = fX →
      (exitCM c fX exc stM).childrenOf p = stM.childrenOf p ++ [c] ∧
      ∀ q, q ≠ p → (exitCM c fX exc stM).childrenOf q = stM.childrenOf q) ∧
    (st.lastParent.2 = none →
      ∀ q, (exitCM c fX exc stM).childrenOf q = stM.childrenOf q) ∧
    (∀ f, st.lastParent.1 = some f → f ≠ fX →
      ∀ q, (exitCM c fX exc stM).childrenOf q = stM.childrenOf q) ∧
    (st.lastParent.1 = none →
      ∀ q, (exitCM c fX exc stM).childrenOf q = stM.childrenOf q) := by
  have hF' : stM.savedFrame c = st.lastParent.1 := by
    simpa [enterCM, updFn] using hF
  have hP' : stM.savedParent c = st.lastParent.2 := by
    simpa [enterCM, updFn] using hP
  refine ⟨?_, ?_, ?_, ?_, ?_⟩
  · show (stM.savedFrame c, stM.savedParent c) = st.lastParent
    rw [hF', hP']
  · intro f p hst hf
    have h1 : stM.savedParent c = some p := by rw [hP', hst]
    have h2 : stM.savedFrame c = some f := by rw [hF', hst]
    constructor
    · simp [exitCM, h1, h2, hf, updFn]
    · intro q hq
      simp [exitCM, h1, h2, hf, updFn, hq]
  · intro hnone q
    have h1 : stM.savedParent c = none := by rw [hP', hnone]
    simp [exitCM, h1]
  · intro f hsome hne q
    have h2 : stM.savedFrame c = some f := by rw [hF', hsome]
    cases h1 : stM.savedParent c with
    | none => simp [exitCM, h1, h2]
    | some p => simp [exitCM, h1, h2, hne]
  · intro hnone q
    have h2 : stM.savedFrame c = none := by rw [hF', hnone]
    cases h1 : stM.savedParent c with
    | none => simp [exitCM, h1, h2]
    | some p => simp [exitCM, h1, h2]

/-- C1 witness: component 2 enters from frame 5 while (frame 1, parent 0)
is active, then exits abnormally in frame 1: the pair is restored and 2 is
appended to 0's children. -/
theorem claim_C1_witness :
    (exitCM 2 1 (some "boom") (enterCM 2 5 cmInitState)).lastParent
      = cmInitState.lastParent ∧
    (exitCM 2 1 (some "boom") (enterCM 2 5 cmInitState)).childrenOf 0
      = (enterCM 2 5 cmInitState).childrenOf 0 ++ [2] := by
  have h := claim_C1_scoped_block cmInitState (enterCM 2 5 cmInitState)
    2 5 1 (some "boom") rfl rfl
  exact ⟨h.1, (h.2.1 1 0 rfl rfl).1⟩
theorem joinEscaped_eq_foldr : (l : ContentList) →
    joinEscaped l = ((ContentList.toList l).map escapeChild).foldr (fun a b => a ++ b) ""
  | .nil => rfl
  | .cons c rest => by
    simp [joinEscaped, ContentList.toList, joinEscaped_eq_foldr rest]

/-- C2: during children assembly (_escape and __render), a component child
contributes its full recursive render as safe text and is never
re-escaped; a safe string passes through unchanged; a plain string is
escaped into safe text; an iterable child is flattened, each element
processed by the same rules and the results concatenated in order; and an
empty children sequence yields the empty safe string, which is still
passed to the content-producing step. -/
theorem claim_C2_escape_rules :
    (∀ c : HComp, escapeChild (Content.comp c) = renderComp c) ∧
    (∀ s, escapeChild (Content.safeS s) = s) ∧
    (∀ s, escapeChild (Content.text s) = escapeStr s) ∧
    (∀ l, escapeChild (Content.seq l) =
      ((ContentList.toList l).map escapeChild).foldr (fun a b => a ++ b) "") ∧
    (∀ render1, renderWith render1 ContentList.nil = render1 "") ∧
    (∀ render1 l, renderWith render1 l =
      render1 (((ContentList.toList l).map escapeChild).foldr (fun a b => a ++ b) "")) := by
  refine ⟨fun c => rfl, fun s => rfl, fun s => rfl, ?_, fun render1 => rfl, ?_⟩
  · intro l
    rw [show escapeChild (Content.seq l) = joinEscaped l from rfl]
    exact joinEscaped_eq_foldr l
  · intro render1 l
    rw [← joinEscaped_eq_foldr]
    cases l with
    | nil => rfl
    | cons c rest => rfl

/-- C3 counterexample: a lazy component whose first indexed attachment
bound the empty string (a falsy value) accepts a second indexed
attachment without any error, silently rebinding its children - the claim
says every subsequent indexed attachment must fail with a rebinding
error. -/
theorem claim_C3_counterexample :
    (lazyGetitem id { isLazy := true, children := Content.seq ContentList.nil }
        (Content.text "")).2
      = { isLazy := true, children := Content.text "" } ∧
    lazyGetitem id { isLazy := true, children := Content.text "" }
        (Content.text "x")
      = (GetOut.selfRet, { isLazy := true, children := Content.text "x" }) := by
  exact ⟨rfl, rfl⟩

/-- C3 amended: indexed attachment on a non-lazy component renders the
normalized content and leaves the receiver untouched; on a lazy component
the first indexed attachment stores the raw content and returns the
instance itself; a subsequent indexed attachment fails with a ValueError
and leaves the bound children unchanged provided the bound children are
truthy - a falsy first binding (empty string or empty sequence) leaves
the instance open to rebinding. -/
theorem claim_C3_lazy_binding (render1 : String → String) (c : LazyComp)
    (x : Content) :
    (c.isLazy = false →
      lazyGetitem render1 c x =
        (GetOut.rendered (renderWith render1 (normalizeChildren x)), c)) ∧
    (c.isLazy = true → truthy c.children = false →
      lazyGetitem render1 c x = (GetOut.selfRet, { c with children := x })) ∧
    (c.isLazy = true → truthy c.children = true →
      lazyGetitem render1 c x =
        (GetOut.raised (PyErr.valueErr "Lazy component already has children"), c)) := by
  refine ⟨fun h => by simp [lazyGetitem, h], fun h ht => ?_, fun h ht => ?_⟩
  · simp [lazyGetitem, h, ht]
  · simp [lazyGetitem, h, ht]

/-- C3 witness for the amended claim at concrete inputs: a non-lazy
render, a first lazy binding, and a rejected second lazy binding. -/
theorem claim_C3_witness :
    lazyGetitem id { isLazy := false, children := Content.seq ContentList.nil }
        (Content.text "hi")
      = (GetOut.rendered (renderWith id (normalizeChildren (Content.text "hi"))),
         { isLazy := false, children := Content.seq ContentList.nil }) ∧
    lazyGetitem id { isLazy := true, children := Content.seq ContentList.nil }
        (Content.text "hi")
      = (GetOut.selfRet, { isLazy := true, children := Content.text "hi" }) ∧
    lazyGetitem id { isLazy := true, children := Content.text "hi" }
        (Content.text "zz")
      = (GetOut.raised (PyErr.valueErr "Lazy component already has children"),
         { isLazy := true, children := Content.text "hi" }) := by
  refine ⟨(claim_C3_lazy_binding id _ _).1 rfl,
    (claim_C3_lazy_binding id _ _).2.1 rfl (by decide),
    (claim_C3_lazy_binding id _ _).2.2 rfl (by decide)⟩

theorem containsKey_of_containsKey_filter (d : Props) (p : String × Value → Bool)
    (k : String) (h : containsKey (d.filter p) k = true) : containsKey d k = true := by
  unfold containsKey at *
  rw [List.any_eq_true] at *
  obtain ⟨kv, hkv, hb⟩ := h
  exact ⟨kv, List.mem_of_mem_filter hkv, hb⟩

/-- C4 counterexample: a function component whose function declares
children as a positional parameter. The parameter is in the declared
parameter list, yet _make_func_component sets _pass_children = False and
_get_content does not pass the resolved children. -/
theorem claim_C4_counterexample :
    ("children" ∈ (ArgSpec.mk ["children"] []).args ++
        (ArgSpec.mk ["children"] []).kwonlyargs) ∧
    funcPassChildren (ArgSpec.mk ["children"] []) = false ∧
    containsKey (funcCallKwargs [("x", Value.str "1")] ["children"]
        (funcPassChildren (ArgSpec.mk ["children"] [])) "resolved") "children"
      = false := by
  exact ⟨by decide, rfl, rfl⟩

/-- C4 amended: a function component passes the resolved children iff
"children" is among the function's keyword-only parameters (a positional
children parameter does not count); a class component passes children to
render iff "children" is among render's positional or keyword-only
parameters. When passed, the children keyword holds exactly the resolved
safe string. -/
theorem claim_C4_pass_children (a : ArgSpec) (props : Props)
    (argnames : List String) (ch : String)
    (hprops : containsKey props "children" = false) :
    (funcPassChildren a = true ↔ "children" ∈ a.kwonlyargs) ∧
    (classPassChildren a = true ↔
      "children" ∈ a.args ∨ "children" ∈ a.kwonlyargs) ∧
    (containsKey (funcCallKwargs props argnames (funcPassChildren a) ch)
        "children" = true ↔ "children" ∈ a.kwonlyargs) ∧
    (funcPassChildren a = true →
      dlookup (funcCallKwargs props argnames (funcPassChildren a) ch) "children"
        = some (Value.safeV ch)) ∧
    (classRenderChildrenArg (classPassChildren a) ch = some ch ↔
      "children" ∈ a.args ∨ "children" ∈ a.kwonlyargs) := by
  have hfp : funcPassChildren a = true ↔ "children" ∈ a.kwonlyargs := by
    unfold funcPassChildren
    exact List.elem_iff
  have hcp : classPassChildren a = true ↔
      "children" ∈ a.args ∨ "children" ∈ a.kwonlyargs := by
    unfold classPassChildren
    rw [List.elem_iff]
    exact List.mem_append
  refine ⟨hfp, hcp, ?_, ?_, ?_⟩
  · constructor
    · intro hck
      by_cases hp : funcPassChildren a = true
      · exact hfp.mp hp
      · exfalso
        rw [Bool.not_eq_true] at hp
        rw [funcCallKwargs, hp, if_neg (by simp)] at hck
        exact absurd (containsKey_of_containsKey_filter _ _ _ hck)
          (by rw [hprops]; simp)
    · intro hck
      rw [funcCallKwargs, hfp.mpr hck, if_pos rfl, containsKey_dictSet]
      simp
  · intro hp
    rw [funcCallKwargs, hp, if_pos rfl, dlookup_dictSet]
    simp
  · constructor
    · intro h
      apply hcp.mp
      by_contra hcl
      have hcl' : classPassChildren a = false := by
        rwa [Bool.not_eq_true] at hcl
      rw [classRenderChildrenArg, hcl'] at h
      simp at h
    · intro h
      rw [classRenderChildrenArg, hcp.mpr h, if_pos rfl]

/-- C4 witness for the amended claim: a function with a keyword-only
children parameter receives the resolved children under props lacking a
children key. -/
theorem claim_C4_witness :
    containsKey [("x", Value.str "1")] "children" = false ∧
    dlookup (funcCallKwargs [("x", Value.str "1")] []
        (funcPassChildren (ArgSpec.mk [] ["children"])) "kids") "children"
      = some (Value.safeV "kids") := by
  refine ⟨by decide, ?_⟩
  exact (claim_C4_pass_children (ArgSpec.mk [] ["children"]) [("x", Value.str "1")]
    [] "kids" (by decide)).2.2.2.1 (by decide)
/-- C8: multiplying a component instance by a non-negative integer n gives
a new zero-argument component rendering the instance's safe text repeated
n times; a non-integer operand yields NotImplemented. -/
theorem claim_C8_mul (c : HComp) (n : Int) (hn : 0 ≤ n) :
    hmulRendered c (MulOperand.int n)
      = some (String.join (List.replicate n.toNat (renderComp c))) ∧
    hmulRendered c MulOperand.nonInt = none := by
  exact ⟨rfl, rfl⟩

/-- C8 witness: an Hr component times 3 renders three times, matching the
spec's example. -/
theorem claim_C8_witness :
    (0 : Int) ≤ 3 ∧
    hmulRendered (HComp.selfElem "hr" [] []) (MulOperand.int 3)
      = some "<hr /><hr /><hr />" ∧
    hmulRendered (HComp.selfElem "hr" [] []) MulOperand.nonInt = none := by
  have h := claim_C8_mul (HComp.selfElem "hr" [] []) 3 (by decide)
  refine ⟨by decide, ?_, h.2⟩
  rw [h.1]
  rfl

theorem dictSet_eq_append (d : Props) (k : String) (v : Value)
    (h : containsKey d k = false) : dictSet d k v = d ++ [(k, v)] := by
  induction d with
  | nil => rfl
  | cons kv rest ih =>
    rw [containsKey_cons, Bool.or_eq_false_iff] at h
    rw [dictSet, if_neg (by simp [h.1]), ih h.2]
    rfl

theorem dictUpdate_eq_append (m d : Props)
    (hdisj : ∀ k ∈ dictKeys m, containsKey d k = false)
    (hnodup : (dictKeys m).Nodup) : dictUpdate d m = d ++ m := by
  induction m generalizing d with
  | nil => simp [dictUpdate]
  | cons kv rest ih =>
    rw [dictKeys, List.map_cons, List.nodup_cons] at hnodup
    show dictUpdate (dictSet d kv.1 kv.2) rest = _
    rw [dictSet_eq_append d kv.1 kv.2
      (hdisj kv.1 (by rw [dictKeys, List.map_cons]; exact List.mem_cons_self _ _))]
    rw [ih (d ++ [(kv.1, kv.2)]) ?_ hnodup.2]
    · simp
    · intro k hk
      rw [containsKey_append, Bool.or_eq_false_iff]
      refine ⟨hdisj k
        (by rw [dictKeys, List.map_cons]; exact List.mem_cons_of_mem _ hk), ?_⟩
      rw [containsKey_cons]
      simp only [containsKey_nil, Bool.or_false]
      rw [beq_eq_false_iff_ne]
      intro he
      rw [he] at hnodup
      exact hnodup.1 hk

/-- Python dict(m) for an already duplicate-free m. -/
theorem dictUpdate_nil (m : Props) (hnodup : (dictKeys m).Nodup) :
    dictUpdate [] m = m := by
  rw [dictUpdate_eq_append m [] (fun k _ => rfl) hnodup]
  rfl

theorem boolValTrue_eq_false_of_not_bool (v : Value) (h : isBoolVal v = false) :
    boolValTrue v = false := by
  cases v <;> simp [isBoolVal, boolValTrue] at h ⊢

theorem convertGo_error (kwargs : Props) (nk kv : Props) (ba : List String)
    (h : ∃ p ∈ kwargs, bothQuotes p.2 = true) :
    convertGo kwargs nk kv ba =
      .error (.valueErr "Both single and double quotes in attribute value") := by
  induction kwargs generalizing nk kv ba with
  | nil =>
    obtain ⟨p, hp, _⟩ := h
    exact absurd hp (List.not_mem_nil p)
  | cons q rest ih =>
    obtain ⟨key, val⟩ := q
    by_cases hqv : bothQuotes val = true
    · rw [convertGo, if_pos hqv]
    · have hrest : ∃ p ∈ rest, bothQuotes p.2 = true := by
        obtain ⟨p, hp, hpq⟩ := h
        rcases List.mem_cons.mp hp with he | hm
        · rw [he] at hpq
          exact absurd hpq hqv
        · exact ⟨p, hm, hpq⟩
      rw [convertGo, if_neg hqv]
      by_cases hk : iskeyword (key.dropRight 1) = true
      · rw [if_pos hk]
        exact ih _ _ _ hrest
      · rw [if_neg hk]
        by_cases hb : isBoolVal val = true
        · rw [if_pos hb]
          by_cases hbt : boolValTrue val = true
          · rw [if_pos hbt]
            exact ih _ _ _ hrest
          · rw [if_neg hbt]
            exact ih _ _ _ hrest
        · rw [if_neg hb]
          exact ih _ _ _ hrest

/-- The key/value classification of the amended serialization claim: a key
whose last character removed yields a reserved word is emitted under the
shortened name (whatever its value, booleans included); otherwise boolean
values are not key/value attributes. Insertion order is kept. -/
def specKVs (kwargs : Props) : Props :=
  kwargs.filterMap (fun p =>
    if iskeyword (p.1.dropRight 1) then some (p.1.dropRight 1, p.2)
    else if isBoolVal p.2 then none
    else some p)

/-- The presence-only (boolean) attribute keys of the amended serialization
claim: keys not shortened to a reserved word whose value is True, in
insertion order. -/
def specBools (kwargs : Props) : List String :=
  kwargs.filterMap (fun p =>
    if iskeyword (p.1.dropRight 1) then none
    else if boolValTrue p.2 then some p.1
    else none)

theorem convertGo_ok (kwargs : Props) (nk kv : Props) (ba : List String)
    (hq : ∀ p ∈ kwargs, bothQuotes p.2 = false)
    (hdisj : ∀ k ∈ dictKeys (specKVs kwargs),
      containsKey nk k = false ∧ containsKey kv k = false)
    (hnodup : (dictKeys (specKVs kwargs)).Nodup) :
    convertGo kwargs nk kv ba =
      .ok (nk ++ specKVs kwargs, kv ++ specKVs kwargs, ba ++ specBools kwargs) := by
  induction kwargs generalizing nk kv ba with
  | nil => simp [convertGo, specKVs, specBools]
  | cons q rest ih =>
    obtain ⟨key, val⟩ := q
    have hqv : bothQuotes val = false := hq _ (List.mem_cons_self _ _)
    have hqr : ∀ p ∈ rest, bothQuotes p.2 = false :=
      fun p hp => hq p (List.mem_cons_of_mem _ hp)
    rw [convertGo, if_neg (by simp [hqv])]
    by_cases hk : iskeyword (key.dropRight 1) = true
    · have hsk : specKVs ((key, val) :: rest)
          = (key.dropRight 1, val) :: specKVs rest := by
        simp [specKVs, hk]
      have hsb : specBools ((key, val) :: rest) = specBools rest := by
        simp [specBools, hk]
      rw [hsk] at hnodup hdisj
      rw [dictKeys, List.map_cons, List.nodup_cons] at hnodup
      have hd0 := hdisj (key.dropRight 1)
        (by rw [dictKeys, List.map_cons]; exact List.mem_cons_self _ _)
      rw [if_pos hk, dictSet_eq_append nk _ _ hd0.1, dictSet_eq_append kv _ _ hd0.2]
      rw [ih _ _ _ hqr ?_ hnodup.2]
      · rw [hsk, hsb]
        simp
      · intro k hkmem
        have hne : ((key.dropRight 1 : String) == k) = false := by
          rw [beq_eq_false_iff_ne]
          intro he
          rw [he] at hnodup
          exact hnodup.1 hkmem
        have hd := hdisj k
          (by rw [dictKeys, List.map_cons]; exact List.mem_cons_of_mem _ hkmem)
        constructor <;> rw [containsKey_append, Bool.or_eq_false_iff] <;>
          exact ⟨by simp [hd.1, hd.2], by simp [containsKey, hne]⟩
    · rw [if_neg hk]
      by_cases hb : isBoolVal val = true
      · have hsk : specKVs ((key, val) :: rest) = specKVs rest := by
          simp [specKVs, hk, hb]
        rw [hsk] at hnodup hdisj
        rw [if_pos hb]
        by_cases hbt : boolValTrue val = true
        · have hsb : specBools ((key, val) :: rest) = key :: specBools rest := by
            simp [specBools, hk, hbt]
          rw [if_pos hbt, ih _ _ _ hqr hdisj hnodup, hsk, hsb]
          simp
        · have hbt' : boolValTrue val = false := by
            rwa [Bool.not_eq_true] at hbt
          have hsb : specBools ((key, val) :: rest) = specBools rest := by
            simp [specBools, hk, hbt']
          rw [if_neg hbt, ih _ _ _ hqr hdisj hnodup, hsk, hsb]
      · have hsk : specKVs ((key, val) :: rest) = (key, val) :: specKVs rest := by
          simp [specKVs, hk, hb]
        have hb' : isBoolVal val = false := by
          rwa [Bool.not_eq_true] at hb
        have hsb : specBools ((key, val) :: rest) = specBools rest := by
          simp [specBools, hk, boolValTrue_eq_false_of_not_bool val hb']
        rw [hsk] at hnodup hdisj
        rw [dictKeys, List.map_cons, List.nodup_cons] at hnodup
        have hd0 := hdisj key
          (by rw [dictKeys, List.map_cons]; exact List.mem_cons_self _ _)
        rw [if_neg hb, dictSet_eq_append nk _ _ hd0.1, dictSet_eq_append kv _ _ hd0.2]
        rw [ih _ _ _ hqr ?_ hnodup.2]
        · rw [hsk, hsb]
          simp
        · intro k hkmem
          have hne : ((key : String) == k) = false := by
            rw [beq_eq_false_iff_ne]
            intro he
            rw [he] at hnodup
            exact hnodup.1 hkmem
          have hd := hdisj k
            (by rw [dictKeys, List.map_cons]; exact List.mem_cons_of_mem _ hkmem)
          constructor <;> rw [containsKey_append, Bool.or_eq_false_iff] <;>
            exact ⟨by simp [hd.1, hd.2], by simp [containsKey, hne]⟩

theorem _convert_kwargs_ok (kwargs : Props)
    (hq : ∀ p ∈ kwargs, bothQuotes p.2 = false)
    (hnodup : (dictKeys (specKVs kwargs)).Nodup) :
    _convert_kwargs kwargs
      = .ok (specKVs kwargs, specKVs kwargs, specBools kwargs) := by
  rw [_convert_kwargs, convertGo_ok kwargs [] [] []
    hq (fun k _ => ⟨rfl, rfl⟩) hnodup]
  simp

/-- One attribute group of the amended claim: space-separated, preceded by
one space when nonempty. -/
def joinGroup (xs : List String) : String :=
  let s := String.intercalate " " xs
  if s = "" then "" else " " ++ s

/-- The serialization of the amended claim, written from its words: reject
any str-valued attribute containing both quote characters; emit
presence-only attributes first (insertion order, names hyphenated and
escaped), then key/value attributes (insertion order, reserved-shortened
names, None values omitted, double-quoted unless the escaped value
contains a double quote, then single-quoted). -/
def specAttributes (kwargs : Props) : Except PyErr String :=
  if kwargs.any (fun p => bothQuotes p.2) then
    .error (.valueErr "Both single and double quotes in attribute value")
  else
    .ok (joinGroup ((specBools kwargs).map convName) ++
      joinGroup ((specKVs kwargs).filterMap
        (fun kv => if kv.2 = Value.noneV then none else some (fmtKeyVal kv.1 kv.2))))

theorem _get_attributes_eq_joinGroup (kvArgs : Props) (boolArgs : List String) :
    _get_attributes kvArgs boolArgs =
      joinGroup (boolArgs.map convName) ++
      joinGroup (kvArgs.filterMap
        (fun kv => if kv.2 = Value.noneV then none else some (fmtKeyVal kv.1 kv.2))) := by
  unfold _get_attributes joinGroup
  by_cases h1 : String.intercalate " " (boolArgs.map convName) = "" <;>
  by_cases h2 : String.intercalate " " (kvArgs.filterMap
      (fun kv => if kv.2 = Value.noneV then none
        else some (fmtKeyVal kv.1 kv.2))) = "" <;>
  simp [h1, h2]

/-- C5 counterexample: the attribute key "iff" has no trailing underscore,
so per the claim it should be emitted under the name "iff"; but the source
strips the last character of every key before the reserved-word test, and
"if" is a reserved word, so the attribute is emitted under "if". -/
theorem claim_C5_counterexample :
    _convert_kwargs [("iff", Value.str "x")]
      = .ok ([("if", Value.str "x")], [("if", Value.str "x")], []) ∧
    (_convert_kwargs [("iff", Value.str "x")]).map
        (fun r => _get_attributes r.2.1 r.2.2)
      = .ok " if=\"x\"" := by
  constructor <;> rfl

/-- C5 amended: attribute serialization classifies a keyword as a
key/value attribute under the shortened name when removing its last
character (underscore or not) yields a reserved word, regardless of its
value (booleans included); otherwise True becomes a presence-only
attribute, False and other booleans are suppressed, and remaining values
are key/value attributes; a str value containing both quote characters is
rejected; serialization emits presence-only attributes before key/value
attributes, names hyphenated and escaped, None values omitted, insertion
order kept in each group, values double-quoted unless the escaped value
contains a double quote. Stated as: the source conversion plus
_get_attributes agree with the serialization written from these words,
whenever the emitted key/value names do not collide. -/
theorem claim_C5_attribute_serialization (kwargs : Props)
    (hnodup : (dictKeys (specKVs kwargs)).Nodup) :
    (_convert_kwargs kwargs).map (fun r => _get_attributes r.2.1 r.2.2)
      = specAttributes kwargs := by
  by_cases hq : ∃ p ∈ kwargs, bothQuotes p.2 = true
  · rw [_convert_kwargs, convertGo_error _ _ _ _ hq]
    unfold specAttributes
    rw [if_pos ?_]
    · rfl
    · rw [List.any_eq_true]
      obtain ⟨p, hp, hb⟩ := hq
      exact ⟨p, hp, hb⟩
  · push_neg at hq
    have hq' : ∀ p ∈ kwargs, bothQuotes p.2 = false := by
      intro p hp
      rcases Bool.eq_false_or_eq_true (bothQuotes p.2) with h | h
      · exact absurd h (hq p hp)
      · exact h
    rw [_convert_kwargs_ok kwargs hq' hnodup]
    unfold specAttributes
    rw [if_neg ?_]
    · rw [Except.map]
      exact congrArg Except.ok (_get_attributes_eq_joinGroup _ _)
    · rw [List.any_eq_true]
      rintro ⟨p, hp, hb⟩
      exact absurd hb (hq p hp)

/-- C5 witness for the amended claim at a concrete attribute list covering
a reserved-word key, a presence-only boolean, a suppressed False boolean,
a hyphenated key, an omitted None and a single-quoted safe value. -/
theorem claim_C5_witness :
    (dictKeys (specKVs [("class_", Value.str "a b"), ("disabled", Value.bool true),
        ("hidden", Value.bool false), ("data_x", Value.str "1"),
        ("y", Value.noneV), ("q", Value.safeV "say \"hi\"")])).Nodup ∧
    (_convert_kwargs [("class_", Value.str "a b"), ("disabled", Value.bool true),
        ("hidden", Value.bool false), ("data_x", Value.str "1"),
        ("y", Value.noneV), ("q", Value.safeV "say \"hi\"")]).map
        (fun r => _get_attributes r.2.1 r.2.2)
      = specAttributes [("class_", Value.str "a b"), ("disabled", Value.bool true),
        ("hidden", Value.bool false), ("data_x", Value.str "1"),
        ("y", Value.noneV), ("q", Value.safeV "say \"hi\"")] ∧
    specAttributes [("class_", Value.str "a b"), ("disabled", Value.bool true),
        ("hidden", Value.bool false), ("data_x", Value.str "1"),
        ("y", Value.noneV), ("q", Value.safeV "say \"hi\"")]
      = .ok " disabled class=\"a b\" data-x=\"1\" q='say \"hi\"'" := by
  refine ⟨by decide, claim_C5_attribute_serialization _ (by decide), ?_⟩
  rfl
/-- C9: supplying a str-valued attribute containing both a single and a
double quote fails with ValueError at the call itself - at construction
and in replace, merge and append, all of which convert the keyword
arguments first. -/
theorem errorBind {α β : Type} (e : PyErr) (f : α → Except PyErr β) :
    (Except.error e >>= f) = Except.error e := rfl

theorem claim_C9_quote_error (tag : String) (c : HtmlComp) (kwargs : Props)
    (p : String × Value) (s : String)
    (hmem : p ∈ kwargs) (hs : isStrLike p.2 = some s)
    (hdq : strContainsChar s '"' = true) (hsq : strContainsChar s '\'' = true) :
    _convert_kwargs kwargs
      = .error (.valueErr "Both single and double quotes in attribute value") ∧
    htmlInit tag kwargs
      = .error (.valueErr "Both single and double quotes in attribute value") ∧
    htmlReplace c kwargs
      = .error (.valueErr "Both single and double quotes in attribute value") ∧
    htmlMerge c kwargs
      = .error (.valueErr "Both single and double quotes in attribute value") ∧
    htmlAppend c kwargs
      = .error (.valueErr "Both single and double quotes in attribute value") := by
  have hbq : bothQuotes p.2 = true := by
    unfold bothQuotes
    rw [hs]
    simp [hdq, hsq]
  have hconv : _convert_kwargs kwargs
      = .error (.valueErr "Both single and double quotes in attribute value") := by
    rw [_convert_kwargs]
    exact convertGo_error kwargs [] [] [] ⟨p, hmem, hbq⟩
  refine ⟨hconv, ?_, ?_, ?_, ?_⟩ <;>
    simp [htmlInit, htmlReplace, htmlMerge, htmlAppend, hconv, errorBind]

/-- C9 witness: the value a"b'c is rejected at construction. -/
theorem claim_C9_witness :
    (("title", Value.str "a\"b'c") ∈ [("title", Value.str "a\"b'c")]) ∧
    strContainsChar "a\"b'c" '"' = true ∧
    strContainsChar "a\"b'c" '\'' = true ∧
    htmlInit "div" [("title", Value.str "a\"b'c")]
      = .error (.valueErr "Both single and double quotes in attribute value") := by
  refine ⟨List.mem_singleton.mpr rfl, by decide, by decide, ?_⟩
  exact (claim_C9_quote_error "div" ⟨"div", [], [], []⟩
    [("title", Value.str "a\"b'c")] ("title", Value.str "a\"b'c") "a\"b'c"
    (List.mem_singleton.mpr rfl) rfl (by decide) (by decide)).2.1
theorem _merge_props_lookup (c : BaseComp) (K : Props)
    (hdef : ∀ k, containsKey c.defaults k = true → containsKey c.props k = true)
    (hpn : (dictKeys c.props).Nodup) (k : String) :
    dlookup (_merge c K).props k = dlookup (dictUpdate c.props K) k := by
  show dlookup (initProps c.defaults c.argnames [] (dictUpdate c.props K)) k = _
  unfold initProps
  rw [List.zip_nil_right]
  show dlookup (dictUpdate c.defaults (dictUpdate c.props K)) k = _
  have hmn : (dictKeys (dictUpdate c.props K)).Nodup :=
    nodup_keys_dictUpdate _ _ hpn
  rw [dlookup_dictUpdate _ _ _ hmn]
  by_cases hmk : containsKey (dictUpdate c.props K) k = true
  · rw [if_pos hmk]
  · have hmk' : containsKey (dictUpdate c.props K) k = false := by
      rwa [Bool.not_eq_true] at hmk
    rw [if_neg hmk]
    rw [containsKey_dictUpdate, Bool.or_eq_false_iff] at hmk'
    have hd : containsKey c.defaults k = false := by
      cases hdc : containsKey c.defaults k
      · rfl
      · exact absurd (hdef k hdc) (by rw [hmk'.1]; simp)
    rw [dlookup_eq_none_of_not_containsKey _ _ hd,
      dlookup_eq_none_of_not_containsKey _ _
        (by rw [containsKey_dictUpdate, hmk'.1, hmk'.2]; rfl)]

/-- C6 counterexample: merging the keyword class_ into a markup-element
component with empty props succeeds (no key of K is in props, consistent
with the failure condition), but the result's props hold the converted
key "class", not "class_": the success props do not equal the union of
props and K. -/
theorem claim_C6_counterexample :
    htmlMerge ⟨"div", [], [], []⟩ [("class_", Value.str "x")]
      = .ok ⟨"div", [("class", Value.str "x")], [("class", Value.str "x")], []⟩ ∧
    dlookup [("class", Value.str "x")] "class_" = none ∧
    dlookup (dictUpdate ([] : Props) [("class_", Value.str "x")]) "class_"
      = some (Value.str "x") := by
  refine ⟨rfl, rfl, rfl⟩

/-- C6 amended: for factory-built (non-markup) components, merge fails iff
some key of K is already in props; the error is a KeyError whose message
enumerates exactly the overlapping keys (in K order); on success the
result's props are the union of props and K (markup-element components
first convert K by attribute classification, see the counterexample). -/
theorem claim_C6_merge (c : BaseComp) (K : Props)
    (hdef : ∀ k, containsKey c.defaults k = true → containsKey c.props k = true)
    (hpn : (dictKeys c.props).Nodup) :
    ((∃ e, mergeB c K = .error e) ↔
      ∃ k ∈ dictKeys K, containsKey c.props k = true) ∧
    (∀ e, mergeB c K = .error e →
      e = .keyErr (String.intercalate ", "
        ((dictKeys K).filter (fun k => containsKey c.props k)) ++
        " already specified in " ++ reprBase c ++
        ", use the replace method if you want to replace arguments")) ∧
    ((∀ k ∈ dictKeys K, containsKey c.props k = false) →
      mergeB c K = .ok (_merge c K) ∧
      ∀ k, dlookup (_merge c K).props k = dlookup (dictUpdate c.props K) k) := by
  by_cases hov : (dictKeys K).filter (fun k => containsKey c.props k) = []
  · have hok : mergeB c K = .ok (_merge c K) := by
      unfold mergeB
      rw [if_neg (by simp [hov])]
    refine ⟨?_, ?_, ?_⟩
    · constructor
      · rintro ⟨e, he⟩
        rw [hok] at he
        exact absurd he (by simp)
      · rintro ⟨k, hk, hck⟩
        exfalso
        have : k ∈ (dictKeys K).filter (fun k => containsKey c.props k) :=
          List.mem_filter.mpr ⟨hk, hck⟩
        rw [hov] at this
        exact List.not_mem_nil k this
    · intro e he
      rw [hok] at he
      exact absurd he (by simp)
    · intro _
      exact ⟨hok, fun k => _merge_props_lookup c K hdef hpn k⟩
  · have herr : mergeB c K = .error (.keyErr (String.intercalate ", "
        ((dictKeys K).filter (fun k => containsKey c.props k)) ++
        " already specified in " ++ reprBase c ++
        ", use the replace method if you want to replace arguments")) := by
      unfold mergeB
      rw [if_pos (by simp [hov])]
    refine ⟨?_, ?_, ?_⟩
    · constructor
      · intro _
        obtain ⟨k, hk⟩ := List.exists_mem_of_ne_nil _ hov
        have := List.mem_filter.mp hk
        exact ⟨k, this.1, by simpa using this.2⟩
      · intro _
        exact ⟨_, herr⟩
    · intro e he
      rw [herr] at he
      exact (Except.error.inj he).symm
    · intro hnone
      exfalso
      obtain ⟨k, hk⟩ := List.exists_mem_of_ne_nil _ hov
      have := List.mem_filter.mp hk
      have h2 := hnone k this.1
      rw [h2] at this
      simpa using this.2

/-- C6 witness: a successful additive merge and a rejected overlapping
merge on a concrete factory-built component. -/
theorem claim_C6_witness :
    mergeB ⟨"Comp", [], [], [("a", Value.str "1")]⟩ [("b", Value.str "2")]
      = .ok (_merge ⟨"Comp", [], [], [("a", Value.str "1")]⟩ [("b", Value.str "2")]) ∧
    dlookup (_merge ⟨"Comp", [], [], [("a", Value.str "1")]⟩
        [("b", Value.str "2")]).props "b"
      = dlookup (dictUpdate [("a", Value.str "1")] [("b", Value.str "2")]) "b" ∧
    (∃ e, mergeB ⟨"Comp", [], [], [("a", Value.str "1")]⟩ [("a", Value.str "2")]
      = .error e) := by
  have hdef : ∀ k, containsKey ([] : Props) k = true →
      containsKey [("a", Value.str "1")] k = true := by
    intro k h
    simp [containsKey] at h
  have h1 := claim_C6_merge ⟨"Comp", [], [], [("a", Value.str "1")]⟩
    [("b", Value.str "2")] hdef (by decide)
  have h2 := claim_C6_merge ⟨"Comp", [], [], [("a", Value.str "1")]⟩
    [("a", Value.str "2")] hdef (by decide)
  have hs := h1.2.2 (by decide)
  exact ⟨hs.1, hs.2 "b", h2.1.mpr ⟨"a", by decide, by decide⟩⟩

/-- C7 counterexample: replace on a markup-element component first
converts the keyword set, so replacing with class_ produces props holding
"class", not the union with key "class_". -/
theorem claim_C7_counterexample :
    htmlReplace ⟨"div", [], [], []⟩ [("class_", Value.str "x")]
      = .ok ⟨"div", [("class", Value.str "x")], [("class", Value.str "x")], []⟩ ∧
    dlookup [("class", Value.str "x")] "class_" = none ∧
    dlookup (dictUpdate ([] : Props) [("class_", Value.str "x")]) "class_"
      = some (Value.str "x") := by
  refine ⟨rfl, rfl, rfl⟩

/-- C7 amended: for factory-built (non-markup) components, replace returns
a freshly constructed instance whose props are the union of the receiver's
props and K, overlapping keys silently replaced; the receiver itself is
not mutated (the embedding is pure: _merge rebuilds through the
constructor). Markup-element components first convert K, see the
counterexample. -/
theorem claim_C7_replace (c : BaseComp) (K : Props)
    (hdef : ∀ k, containsKey c.defaults k = true → containsKey c.props k = true)
    (hpn : (dictKeys c.props).Nodup) :
    replaceB c K = _merge c K ∧
    ∀ k, dlookup (replaceB c K).props k = dlookup (dictUpdate c.props K) k := by
  exact ⟨rfl, fun k => _merge_props_lookup c K hdef hpn k⟩

/-- C7 witness: replacing an existing key on a concrete component yields
the union with the key silently replaced. -/
theorem claim_C7_witness :
    dlookup (replaceB ⟨"Comp", [], [], [("a", Value.str "1")]⟩
        [("a", Value.str "2")]).props "a"
      = dlookup (dictUpdate [("a", Value.str "1")] [("a", Value.str "2")]) "a" ∧
    dlookup (dictUpdate [("a", Value.str "1")] [("a", Value.str "2")]) "a"
      = some (Value.str "2") := by
  have hdef : ∀ k, containsKey ([] : Props) k = true →
      containsKey [("a", Value.str "1")] k = true := by
    intro k h
    simp [containsKey] at h
  exact ⟨(claim_C7_replace ⟨"Comp", [], [], [("a", Value.str "1")]⟩
    [("a", Value.str "2")] hdef (by decide)).2 "a", by decide⟩
theorem okBind {α β : Type} (a : α) (f : α → Except PyErr β) :
    (Except.ok a >>= f) = f a := rfl

theorem mem_specBools (m : Props) (y : String) :
    y ∈ specBools m ↔ ∃ p ∈ m, iskeyword (p.1.dropRight 1) = false ∧
      boolValTrue p.2 = true ∧ y = p.1 := by
  unfold specBools
  rw [List.mem_filterMap]
  constructor
  · rintro ⟨p, hp, hf⟩
    by_cases hk : iskeyword (p.1.dropRight 1) = true
    · rw [if_pos hk] at hf
      exact absurd hf (by simp)
    · rw [if_neg hk] at hf
      by_cases hbt : boolValTrue p.2 = true
      · rw [if_pos hbt] at hf
        exact ⟨p, hp, by rwa [Bool.not_eq_true] at hk, hbt,
          (Option.some.inj hf).symm⟩
      · rw [if_neg hbt] at hf
        exact absurd hf (by simp)
  · rintro ⟨p, hp, hk, hbt, hy⟩
    exact ⟨p, hp, by rw [if_neg (by simp [hk]), if_pos hbt, hy]⟩

theorem mem_keys_specKVs (m : Props) (x : String) :
    x ∈ dictKeys (specKVs m) ↔ ∃ p ∈ m,
      (iskeyword (p.1.dropRight 1) = true ∧ x = p.1.dropRight 1) ∨
      (iskeyword (p.1.dropRight 1) = false ∧ isBoolVal p.2 = false ∧ x = p.1) := by
  unfold dictKeys specKVs
  rw [List.mem_map]
  constructor
  · rintro ⟨q, hq, hx⟩
    rw [List.mem_filterMap] at hq
    obtain ⟨p, hp, hf⟩ := hq
    by_cases hk : iskeyword (p.1.dropRight 1) = true
    · rw [if_pos hk] at hf
      refine ⟨p, hp, .inl ⟨hk, ?_⟩⟩
      rw [← hx, ← Option.some.inj hf]
    · rw [if_neg hk] at hf
      by_cases hb : isBoolVal p.2 = true
      · rw [if_pos hb] at hf
        exact absurd hf (by simp)
      · rw [if_neg hb] at hf
        refine ⟨p, hp, .inr ⟨by rwa [Bool.not_eq_true] at hk,
          by rwa [Bool.not_eq_true] at hb, ?_⟩⟩
        rw [← hx, ← Option.some.inj hf]
  · rintro ⟨p, hp, hcase⟩
    rcases hcase with ⟨hk, hx⟩ | ⟨hk, hb, hx⟩
    · exact ⟨(p.1.dropRight 1, p.2),
        List.mem_filterMap.mpr ⟨p, hp, by rw [if_pos hk]⟩, hx.symm⟩
    · exact ⟨p, List.mem_filterMap.mpr
        ⟨p, hp, by rw [if_neg (by simp [hk]), if_neg (by simp [hb])]⟩, hx.symm⟩

theorem nodup_key_unique (m : Props) (hnod : (dictKeys m).Nodup)
    (k : String) (v1 v2 : Value) (h1 : (k, v1) ∈ m) (h2 : (k, v2) ∈ m) :
    v1 = v2 := by
  induction m with
  | nil => exact absurd h1 (List.not_mem_nil _)
  | cons q rest ih =>
    rw [dictKeys, List.map_cons, List.nodup_cons] at hnod
    rcases List.mem_cons.mp h1 with he1 | hm1 <;>
      rcases List.mem_cons.mp h2 with he2 | hm2
    · have := he1.trans he2.symm
      exact (Prod.mk.injEq _ _ _ _).mp this |>.2
    · exfalso
      apply hnod.1
      rw [← he1]
      exact List.mem_map.mpr ⟨(k, v2), hm2, rfl⟩
    · exfalso
      apply hnod.1
      rw [← he2]
      exact List.mem_map.mpr ⟨(k, v1), hm1, rfl⟩
    · exact ih hnod.2 hm1 hm2

/-- C10 counterexample: constructing with both the boolean keyword "in"
(not itself reserved-shortened, value True) and the keyword "in_" (which
the source shortens to "in") puts the key "in" into props despite the
boolean keyword, and copy() re-classifies that props entry as a
presence-only attribute, so the copy's serialization still contains the
original's presence-only attribute "in". -/
theorem claim_C10_counterexample :
    htmlInit "div" [("in", Value.bool true), ("in_", Value.bool true)]
      = .ok ⟨"div", [("in", Value.bool true)], [("in", Value.bool true)], ["in"]⟩ ∧
    containsKey [("in", Value.bool true)] "in" = true ∧
    htmlCopy ⟨"div", [("in", Value.bool true)], [("in", Value.bool true)], ["in"]⟩
      = .ok ⟨"div", [], [], ["in"]⟩ ∧
    "in" ∈ (⟨"div", [], [], ["in"]⟩ : HtmlComp).boolArgs := by
  refine ⟨rfl, rfl, rfl, by decide⟩

/-- C10 amended: provided no other keyword (first or second level)
shortens to the boolean keyword's name, a markup-element component
constructed with a boolean-valued keyword whose last-character-stripped
name is not reserved excludes that keyword from props (True-valued ones
appear only as presence-only attributes), and consequently copy(), which
rebuilds from props alone, yields an instance whose serialization
contains neither a presence-only nor a key/value attribute under that
keyword. -/
theorem claim_C10_bool_kwargs (tag : String) (kwargs : Props) (k : String)
    (b : Bool)
    (hq : ∀ p ∈ kwargs, bothQuotes p.2 = false)
    (hn1 : (dictKeys (specKVs kwargs)).Nodup)
    (hn2 : (dictKeys (specKVs (specKVs kwargs))).Nodup)
    (hkn : (dictKeys kwargs).Nodup)
    (hmem : (k, Value.bool b) ∈ kwargs)
    (hk : iskeyword (k.dropRight 1) = false)
    (hnocoll : ∀ p ∈ kwargs, iskeyword (p.1.dropRight 1) = true →
      p.1.dropRight 1 ≠ k)
    (hnocoll2 : ∀ p ∈ specKVs kwargs, iskeyword (p.1.dropRight 1) = true →
      p.1.dropRight 1 ≠ k) :
    ∃ c, htmlInit tag kwargs = .ok c ∧
      containsKey c.props k = false ∧
      (b = true → k ∈ c.boolArgs) ∧
      ∃ c2, htmlCopy c = .ok c2 ∧
        k ∉ c2.boolArgs ∧ containsKey c2.keyvalArgs k = false := by
  have hconv := _convert_kwargs_ok kwargs hq hn1
  have hknotin : containsKey (specKVs kwargs) k = false := by
    cases hck : containsKey (specKVs kwargs) k
    · rfl
    · exfalso
      rw [containsKey_iff_mem_keys, mem_keys_specKVs] at hck
      obtain ⟨p, hp, hcase⟩ := hck
      rcases hcase with ⟨hkw, hx⟩ | ⟨hkw, hbv, hx⟩
      · exact hnocoll p hp hkw hx.symm
      · obtain ⟨pk, pv⟩ := p
        simp only at hx hbv
        rw [← hx] at hp
        have hv := nodup_key_unique kwargs hkn k pv (Value.bool b) hp hmem
        rw [hv] at hbv
        simp [isBoolVal] at hbv
  refine ⟨⟨tag, initProps [] [] [] (specKVs kwargs), specKVs kwargs,
    specBools kwargs⟩, ?_, ?_, ?_, ?_⟩
  · simp [htmlInit, hconv, okBind]
  · show containsKey (dictUpdate [] (specKVs kwargs)) k = false
    rw [containsKey_dictUpdate, hknotin]
    simp [containsKey]
  · intro hb
    rw [mem_specBools]
    refine ⟨(k, Value.bool b), hmem, hk, ?_, rfl⟩
    rw [hb]
    rfl
  · have hq2 : ∀ p ∈ specKVs kwargs, bothQuotes p.2 = false := by
      intro p hp
      unfold specKVs at hp
      rw [List.mem_filterMap] at hp
      obtain ⟨p0, hp0, hf⟩ := hp
      by_cases hkw : iskeyword (p0.1.dropRight 1) = true
      · rw [if_pos hkw] at hf
        have hpv : p.2 = p0.2 := by
          rw [← Option.some.inj hf]
        rw [hpv]
        exact hq p0 hp0
      · rw [if_neg hkw] at hf
        by_cases hb2 : isBoolVal p0.2 = true
        · rw [if_pos hb2] at hf
          exact absurd hf (by simp)
        · rw [if_neg hb2] at hf
          rw [← Option.some.inj hf]
          exact hq p0 hp0
    have hconv2 := _convert_kwargs_ok (specKVs kwargs) hq2 hn2
    have hcp : dictUpdate [] (specKVs kwargs) = specKVs kwargs :=
      dictUpdate_nil _ hn1
    refine ⟨⟨tag, initProps [] [] [] (specKVs (specKVs kwargs)),
      specKVs (specKVs kwargs), specBools (specKVs kwargs)⟩, ?_, ?_, ?_⟩
    · show htmlInit tag (dictUpdate (dictUpdate [] (specKVs kwargs)) []) = _
      show htmlInit tag (dictUpdate [] (specKVs kwargs)) = _
      rw [hcp]
      simp [htmlInit, hconv2, okBind]
    · rw [mem_specBools]
      rintro ⟨p, hp, _, _, hy⟩
      have hcontra : containsKey (specKVs kwargs) k = true := by
        rw [containsKey_iff_mem_keys]
        unfold dictKeys
        rw [List.mem_map]
        exact ⟨p, hp, hy.symm⟩
      rw [hknotin] at hcontra
      exact absurd hcontra (by simp)
    · cases hck : containsKey (specKVs (specKVs kwargs)) k
      · rfl
      · exfalso
        rw [containsKey_iff_mem_keys, mem_keys_specKVs] at hck
        obtain ⟨p, hp, hcase⟩ := hck
        rcases hcase with ⟨hkw, hx⟩ | ⟨hkw, hbv, hx⟩
        · exact hnocoll2 p hp hkw hx.symm
        · have hcontra : containsKey (specKVs kwargs) k = true := by
            rw [containsKey_iff_mem_keys]
            unfold dictKeys
            rw [List.mem_map]
            exact ⟨p, hp, hx.symm⟩
          rw [hknotin] at hcontra
          exact absurd hcontra (by simp)

/-- C10 witness for the amended claim: a checked=True boolean keyword on a
collision-free attribute list is excluded from props and from the copy's
attributes. -/
theorem claim_C10_witness :
    ∃ c, htmlInit "div" [("checked", Value.bool true), ("x", Value.str "1")]
        = .ok c ∧
      containsKey c.props "checked" = false ∧
      (true = true → "checked" ∈ c.boolArgs) ∧
      ∃ c2, htmlCopy c = .ok c2 ∧
        "checked" ∉ c2.boolArgs ∧ containsKey c2.keyvalArgs "checked" = false := by
  exact claim_C10_bool_kwargs "div"
    [("checked", Value.bool true), ("x", Value.str "1")] "checked" true
    (by decide) (by decide) (by decide) (by decide) (by decide) (by decide)
    (by decide) (by decide)
end Compone
